import Mathlib

namespace Multikuberay

/-!
Shallow embedding of the multikuberay registry core: the port allocator
(`portmapper.go`), the cluster registry (`clusterindex.go`), the tunnel
supervisor backoff policy (`PortForward`), and the reverse-proxy response
rewriter (`addBase` / `handleProxy`).

Go maps are modelled as association lists (`List (String × β)`) with
map-assignment, deletion and lookup mirroring Go's semantics; the
`sync.Mutex` serialization is modelled by treating each exported operation
as one atomic step.  A Go runtime panic (calling a `nil` function value) is
modelled by returning `none` from the operation.
-/

/-- First value stored under key `k`, i.e. Go's `v, ok := m[k]` (`none` when `!ok`). -/
def mapGet {β : Type} (m : List (String × β)) (k : String) : Option β :=
  match m with
  | [] => none
  | e :: rest => if e.1 = k then some e.2 else mapGet rest k

/-- Go's `m[k] = v`: the new binding shadows (replaces) any previous binding of `k`. -/
def mapSet {β : Type} (m : List (String × β)) (k : String) (v : β) : List (String × β) :=
  (k, v) :: m.filter (fun e => !(e.1 == k))

/-- Go's `delete(m, k)`. -/
def mapDel {β : Type} (m : List (String × β)) (k : String) : List (String × β) :=
  m.filter (fun e => !(e.1 == k))

/-- In-place update of the value stored under `k` (used for mutation of a nested map,
as in Go's `delete(c.clusterTree[contextName], uid)`). -/
def mapAdjust {β : Type} (m : List (String × β)) (k : String) (f : β → β) :
    List (String × β) :=
  m.map (fun e => if e.1 = k then (e.1, f e.2) else e)

/-! ## Port allocator (`portmapper.go`) -/

/-- State of `PortAllocater` (`portmapper.go`): the configured base port
`allocStart`, the set of taken ports `allocated` (Go `map[int]struct{}`,
modelled by list membership) and the `uid ↦ port` table `mapping`. -/
structure PortAllocater where
  allocStart : Nat
  allocated : List Nat
  mapping : List (String × Nat)
deriving DecidableEq

/-- The unbounded `for port := p.allocStart; ; port++` scan of `Allocate`,
made total with explicit fuel; with fuel exceeding the number of taken ports
at or above `start` it returns the first free port (proved below). -/
def scanPort (allocated : List Nat) : Nat → Nat → Nat
  | start, 0 => start
  | start, fuel + 1 => if start ∈ allocated then scanPort allocated (start + 1) fuel else start

/-- `PortAllocater.Allocate` (`portmapper.go` lines 13-27): return the existing
port of an already-mapped `uid`, otherwise take the first free port at or
above `allocStart`, mark it taken and record the mapping. -/
def PortAllocater.Allocate (p : PortAllocater) (uid : String) : Nat × PortAllocater :=
  match mapGet p.mapping uid with
  | some port => (port, p)
  | none =>
    let port := scanPort p.allocated p.allocStart (p.allocated.length + 1)
    (port, { p with allocated := port :: p.allocated, mapping := mapSet p.mapping uid port })

/-- `PortAllocater.Deallocate` (`portmapper.go` lines 29-38): free the port of
`uid` and drop the mapping; a no-op when `uid` is unmapped. -/
def PortAllocater.Deallocate (p : PortAllocater) (uid : String) : PortAllocater :=
  match mapGet p.mapping uid with
  | none => p
  | some port =>
    { p with allocated := p.allocated.filter (fun q => !(q == port)),
             mapping := mapDel p.mapping uid }

/-- `Modelled from the spec:` the constructor `NewPortAllocater` is referenced by
`main.go` (`NewPortAllocater(8270)`) but its definition is not among the sources;
per the spec the allocator starts with the configured base port and empty tables. -/
def NewPortAllocater (start : Nat) : PortAllocater :=
  { allocStart := start, allocated := [], mapping := [] }

/-- `port` is the smallest free port at or above the configured base. -/
def IsLeastFree (p : PortAllocater) (port : Nat) : Prop :=
  port ∉ p.allocated ∧ p.allocStart ≤ port ∧
    ∀ q, p.allocStart ≤ q → q < port → q ∈ p.allocated

/-- The allocator tables form a partial bijection: `mapping` is functional and
injective, and the taken-port set is exactly the range of `mapping`. -/
def PortAllocater.Bij (p : PortAllocater) : Prop :=
  (∀ u q1 q2, mapGet p.mapping u = some q1 → mapGet p.mapping u = some q2 → q1 = q2) ∧
  (∀ u v q, mapGet p.mapping u = some q → mapGet p.mapping v = some q → u = v) ∧
  (∀ q, q ∈ p.allocated ↔ ∃ u, mapGet p.mapping u = some q)

/-! ## Cluster registry (`clusterindex.go`) -/

/-- `RayClusterHandle` (`main.go`); the opaque `kc *kubernetes.Clientset` field is
omitted, `Port *int` becomes `Option Nat`. -/
structure RayClusterHandle where
  rayClusterName : String
  ns : String
  service : String
  contextName : String
  uid : String
  port : Option Nat
deriving DecidableEq

/-- State of `ClusterIndexer` (`clusterindex.go`): the owned port allocator, the
two-level cluster tree, and the keys of `forwardStopFns` (the stop functions
themselves are opaque; only which `uid`s have one recorded matters, since
calling the `nil` value of a missing entry panics). -/
structure ClusterIndexer where
  portAlloc : PortAllocater
  clusterTree : List (String × List (String × RayClusterHandle))
  forwardStopFns : List String
deriving DecidableEq

/-- `NewClusterIndexer` (`clusterindex.go` lines 21-27). -/
def NewClusterIndexer (portAllocater : PortAllocater) : ClusterIndexer :=
  { portAlloc := portAllocater, clusterTree := [], forwardStopFns := [] }

/-- The double-insert check of `Insert`: `c.clusterTree[ctx] != nil` and
`_, ok := c.clusterTree[ctx][uid]`. -/
def hasUid (tree : List (String × List (String × RayClusterHandle)))
    (ctx uid : String) : Bool :=
  match mapGet tree ctx with
  | none => false
  | some sub => (mapGet sub uid).isSome

/-- Two-level lookup in a cluster tree (first the context map, then the uid). -/
def treeGet (tree : List (String × List (String × RayClusterHandle)))
    (ctx uid : String) : Option RayClusterHandle :=
  (mapGet tree ctx).bind (fun sub => mapGet sub uid)

/-- Two-level lookup in the registry's cluster tree. -/
def lookupTree (c : ClusterIndexer) (ctx uid : String) : Option RayClusterHandle :=
  treeGet c.clusterTree ctx uid

/-- Go map-as-set insertion for `c.forwardStopFns[uid] = cancel`. -/
def addKey (l : List String) (k : String) : List String :=
  if k ∈ l then l else k :: l

/-- Go `delete(c.forwardStopFns, uid)`. -/
def removeKey (l : List String) (k : String) : List String :=
  l.filter (fun x => !(x == k))

/-- `ClusterIndexer.storeCluster` (`clusterindex.go` lines 107-112): create the
per-context map if missing, then store the handle under its uid. -/
def ClusterIndexer.storeCluster (c : ClusterIndexer) (handle : RayClusterHandle) :
    ClusterIndexer :=
  match mapGet c.clusterTree handle.contextName with
  | none => { c with clusterTree := (handle.contextName, [(handle.uid, handle)]) :: c.clusterTree }
  | some _ =>
    { c with clusterTree :=
        mapAdjust c.clusterTree handle.contextName (fun sub => mapSet sub handle.uid handle) }

/-- `ClusterIndexer.Insert` (`clusterindex.go` lines 29-50): a duplicate
`(contextName, uid)` returns with no side effects; otherwise allocate a port,
attach it to the handle, store it, and record a stop function for the
port-forward goroutine. -/
def ClusterIndexer.Insert (c : ClusterIndexer) (cluster : RayClusterHandle) :
    ClusterIndexer :=
  if hasUid c.clusterTree cluster.contextName cluster.uid then c
  else
    let r := c.portAlloc.Allocate cluster.uid
    let stored := { cluster with port := some r.1 }
    let c' := { c with portAlloc := r.2 }.storeCluster stored
    { c' with forwardStopFns := addKey c'.forwardStopFns cluster.uid }

/-- `ClusterIndexer.Delete` (`clusterindex.go` lines 52-66): deallocate the port,
invoke and drop the stop function, then remove the tree entry if the context
map exists.  When no stop function is recorded for `uid`,
`c.forwardStopFns[uid]()` calls a `nil` function value and the Go process
panics; this is modelled by `none`. -/
def ClusterIndexer.Delete (c : ClusterIndexer) (contextName uid : String) :
    Option ClusterIndexer :=
  if uid ∈ c.forwardStopFns then
    let pa := c.portAlloc.Deallocate uid
    let fns := removeKey c.forwardStopFns uid
    match mapGet c.clusterTree contextName with
    | none => some { c with portAlloc := pa, forwardStopFns := fns }
    | some _ => some { c with portAlloc := pa, forwardStopFns := fns, clusterTree := mapAdjust c.clusterTree contextName (fun sub => mapDel sub uid) }
  else none

/-- The uids currently stored under `name` (the range of
`for uid := range c.clusterTree[name]`). -/
def ctxUids (c : ClusterIndexer) (name : String) : List String :=
  ((mapGet c.clusterTree name).getD []).map Prod.fst

/-- The `for uid := range c.clusterTree[name] { c.Delete(name, uid) }` sweep of
`DeleteContext`, with the map iteration fixed to association-list order. -/
def foldDeletes (name : String) : ClusterIndexer → List String → Option ClusterIndexer
  | c, [] => some c
  | c, uid :: rest =>
    match c.Delete name uid with
    | none => none
    | some c' => foldDeletes name c' rest

/-- `ClusterIndexer.DeleteContext` (`clusterindex.go` lines 68-79): delete every
uid under the context via `Delete`, then remove the (now empty) context entry. -/
def ClusterIndexer.DeleteContext (c : ClusterIndexer) (name : String) :
    Option ClusterIndexer :=
  match foldDeletes name c (ctxUids c name) with
  | none => none
  | some c' => some { c' with clusterTree := mapDel c'.clusterTree name }

/-- Every handle currently stored in the registry, in tree iteration order. -/
def allHandles (c : ClusterIndexer) : List RayClusterHandle :=
  (c.clusterTree.map (fun e => e.2.map Prod.snd)).flatten

/-- `ClusterIndexer.FuzzyMatch` (`clusterindex.go` lines 92-105): linear scan
keeping the handles whose cluster name starts with `pre`
(`strings.HasPrefix(cluster.RayClusterName, in)`, modelled as byte-prefix on
the character lists). -/
def ClusterIndexer.FuzzyMatch (c : ClusterIndexer) (pre : String) :
    List RayClusterHandle :=
  (allHandles c).filter (fun cluster => pre.data.isPrefixOf cluster.rayClusterName.data)

/-- The snapshot type returned by `ClusterIndexer.List`. -/
abbrev ClusterTree := List (String × List (String × RayClusterHandle))

/-- `ClusterIndexer.List` (`clusterindex.go` lines 81-90); the defensive deep
copy is immaterial in the pure model, so `List` returns the tree itself. -/
def ClusterIndexer.List (c : ClusterIndexer) : ClusterTree :=
  c.clusterTree

/-! ## Tunnel supervisor backoff (`PortForward`)

The repository carries two variants of `PortForward`.  Both compute the next
retry delay from the time since the previous failure and the current delay;
durations are in milliseconds.  Variant A (`src/unnamed/part_000`):
`initBackoff = 10ms`, `maxBackoff = 30s`, quiet window `1min`, update
`min(2*backoff, maxBackoff)`.  Variant B (`src/unnamed/part_001`):
`initBackoff = 10ms`, `maxBackoff = 5s`, quiet window `30s`, update
`max(2*backoff, maxBackoff)`. -/

/-- Backoff update of `PortForward` in `src/unnamed/part_000` (lines 36-44):
reset to 10ms after a quiet gap of more than one minute, otherwise double,
capped at 30s. -/
def nextBackoffA (gapMs backoffMs : Nat) : Nat :=
  if 60000 < gapMs then 10 else min (2 * backoffMs) 30000

/-- Backoff update of `PortForward` in `src/unnamed/part_001` (lines 37-43):
reset to 10ms after a quiet gap of more than 30s, otherwise
`max(2*backoff, maxBackoff)` with `maxBackoff = 5s`. -/
def nextBackoffB (gapMs backoffMs : Nat) : Nat :=
  if 30000 < gapMs then 10 else max (2 * backoffMs) 5000

/-- Delay before the (n+1)-st retry of variant A under immediate repeated
failures (gap 0), starting from the initial 10ms delay. -/
def backoffSeqA : Nat → Nat
  | 0 => 10
  | n + 1 => nextBackoffA 0 (backoffSeqA n)

/-! ## Reverse proxy (`handleProxy`, current variant `src/unnamed/part_002`) -/

/-- `Modelled from the spec:` `PortAllocater.Mapping` is called by `handleProxy`
but its definition is not among the sources; per the spec it is the registry's
lookup resolving a `uid` to its local port, failing when the `uid` has no
mapped port. -/
def PortAllocater.Mapping (p : PortAllocater) (uid : String) : Except String Nat :=
  match mapGet p.mapping uid with
  | some port => Except.ok port
  | none => Except.error "uid not found"

/-- Outcome of `handleProxy`: either an error response or a forward of the
request to the resolved local port. -/
inductive ProxyOutcome where
  | clientError (status : Nat)
  | forward (port : Nat)
deriving DecidableEq

/-- The uid-resolution control flow of `handleProxy`
(`src/unnamed/part_002` lines 14-25): empty uid → 400, unresolved uid → 400,
otherwise forward to the mapped local port. -/
def handleProxy (p : PortAllocater) (uid : String) : ProxyOutcome :=
  if uid = "" then ProxyOutcome.clientError 400
  else
    match p.Mapping uid with
    | Except.error _ => ProxyOutcome.clientError 400
    | Except.ok port => ProxyOutcome.forward port

/-! ## Response rewriting (`addBase`, `src/unnamed/part_002` lines 49-79 and
`src/web_proxy.go` lines 42-72; identical up to the parameter name) -/

/-- `bytes.Cut(body, sep)`: split around the first occurrence of `sep`,
`none` when `sep` does not occur (for the nonempty `sep` used here). -/
def cutList (sep : List Char) : List Char → Option (List Char × List Char)
  | [] => if sep.isPrefixOf ([] : List Char) then some ([], []) else none
  | c :: rest =>
    if sep.isPrefixOf (c :: rest) then some ([], (c :: rest).drop sep.length)
    else
      match cutList sep rest with
      | some (pre, post) => some (c :: pre, post)
      | none => none

/-- The opening head element `addBase` cuts at. -/
def headTag : List Char := "<head>".data

/-- The injected snippet `fmt.Sprintf` builds in `addBase`:
`<head><base href="/proxy/{slug}/"/>`. -/
def baseSnippet (slug : String) : List Char :=
  ("<head><base href=\"/proxy/" ++ slug ++ "/\"/>").data

/-- An HTTP response as `addBase` sees it: the `Content-Type` header value,
the body bytes, and the `Content-Length` header (as a number) when set. -/
structure HttpResponse where
  contentType : List Char
  body : List Char
  contentLength : Option Nat
deriving DecidableEq

/-- `addBase(slug)` applied to a response: skip non-HTML content; pass an
HTML body without `<head>` through unmodified; otherwise splice the base-href
snippet in place of the opening head tag and recompute `Content-Length`. -/
def addBase (slug : String) (resp : HttpResponse) : HttpResponse :=
  if !("text/html".data.isPrefixOf resp.contentType) then resp
  else
    match cutList headTag resp.body with
    | none => resp
    | some (pre, post) =>
      let newBody := pre ++ baseSnippet slug ++ post
      { resp with body := newBody, contentLength := some newBody.length }

/-! ## Reachable registry states -/

/-- States reachable from the empty registry by arbitrary `Insert` and `Delete`
(and `DeleteContext`) calls; a `Delete` whose panic aborts the process
(`none`) produces no successor state. -/
inductive Reachable (base : Nat) : ClusterIndexer → Prop where
  | init : Reachable base (NewClusterIndexer (NewPortAllocater base))
  | insert (c : ClusterIndexer) (h : RayClusterHandle) :
      Reachable base c → Reachable base (c.Insert h)
  | delete (c c' : ClusterIndexer) (ctx uid : String) :
      Reachable base c → c.Delete ctx uid = some c' → Reachable base c'
  | deleteContext (c c' : ClusterIndexer) (name : String) :
      Reachable base c → c.DeleteContext name = some c' → Reachable base c'

/-- States reachable from the empty registry when callers respect the intended
addressing discipline: an inserted `uid` is never already present under a
different context (uids are globally unique), and `Delete` targets the context
the `uid` is actually stored under. -/
inductive ReachableG (base : Nat) : ClusterIndexer → Prop where
  | init : ReachableG base (NewClusterIndexer (NewPortAllocater base))
  | insert (c : ClusterIndexer) (h : RayClusterHandle) :
      ReachableG base c →
      (∀ ctx', ctx' ≠ h.contextName → lookupTree c ctx' h.uid = none) →
      ReachableG base (c.Insert h)
  | delete (c c' : ClusterIndexer) (ctx uid : String) :
      ReachableG base c → (lookupTree c ctx uid).isSome = true →
      c.Delete ctx uid = some c' → ReachableG base c'
  | deleteContext (c c' : ClusterIndexer) (name : String) :
      ReachableG base c → c.DeleteContext name = some c' → ReachableG base c'

/-- Every stored handle is keyed consistently, carries an allocated port that
agrees with the allocator's mapping for its uid, and has a stop function
recorded. -/
def HandlesOK (c : ClusterIndexer) : Prop :=
  ∀ ctx uid h, lookupTree c ctx uid = some h →
    h.uid = uid ∧ h.contextName = ctx ∧
      (∃ q, h.port = some q ∧ mapGet c.portAlloc.mapping uid = some q) ∧
      uid ∈ c.forwardStopFns

/-- A uid is stored under at most one context. -/
def UidUnique (c : ClusterIndexer) : Prop :=
  ∀ ctx1 ctx2 uid, (lookupTree c ctx1 uid).isSome = true →
    (lookupTree c ctx2 uid).isSome = true → ctx1 = ctx2

/-- The registry invariant maintained by disciplined operation sequences. -/
def GoodState (c : ClusterIndexer) : Prop :=
  HandlesOK c ∧ UidUnique c

/-! ## Claim C10 and concrete witness fixtures -/

/-- A concrete handle used by witnesses (context `ctxA`, uid `uidA`). -/
def wHandleA : RayClusterHandle :=
  { rayClusterName := "ray-a", ns := "default", service := "svc-a",
    contextName := "ctxA", uid := "uidA", port := none }

/-- A concrete handle used by witnesses (context `ctxB`, uid `uidB`). -/
def wHandleB : RayClusterHandle :=
  { rayClusterName := "ray-b", ns := "default", service := "svc-b",
    contextName := "ctxB", uid := "uidB", port := none }

/-- The registry after `Insert wHandleA` then `Delete "ctxB" "uidA"`: the
handle survives under `ctxA` but its port mapping is gone. -/
def cex10 : ClusterIndexer :=
  { portAlloc := { allocStart := 8270, allocated := [], mapping := [] },
    clusterTree := [("ctxA", [("uidA", { wHandleA with port := some 8270 })])],
    forwardStopFns := [] }

/-- A concrete allocator state for the `Allocate` witness. -/
def wAlloc : PortAllocater :=
  { allocStart := 8270, allocated := [8270, 8272], mapping := [("a", 8270)] }

/-- A concrete allocator state for the proxy witness. -/
def wAllocProxy : PortAllocater :=
  { allocStart := 8270, allocated := [8271], mapping := [("abc", 8271)] }

/-- The HTML response of the spec's rewrite example. -/
def wRespHtml : HttpResponse :=
  { contentType := "text/html".data,
    body := "<html><head><title>x</title></head><body/></html>".data,
    contentLength := none }

/-- A non-HTML response for the pass-through witness. -/
def wRespJson : HttpResponse :=
  { contentType := "application/json".data, body := "[1,2,3]".data,
    contentLength := none }

/-! ## Lemmas and claim theorems -/

@[simp] theorem mapGet_nil {β : Type} (k : String) : mapGet ([] : List (String × β)) k = none :=
  rfl

theorem mapGet_cons {β : Type} (e : String × β) (m : List (String × β)) (k : String) :
    mapGet (e :: m) k = if e.1 = k then some e.2 else mapGet m k := rfl

@[simp] theorem mapGet_mapSet_self {β : Type} (m : List (String × β)) (k : String) (v : β) :
    mapGet (mapSet m k v) k = some v := by
  simp [mapSet, mapGet]

theorem mapGet_filter_ne {β : Type} (m : List (String × β)) (k k' : String) (h : k' ≠ k) :
    mapGet (m.filter (fun e => !(e.1 == k))) k' = mapGet m k' := by
  induction m with
  | nil => rfl
  | cons e rest ih =>
    by_cases he : e.1 = k
    · have hne : ¬ k = k' := fun hk => h hk.symm
      simp only [List.filter_cons, he, beq_self_eq_true, Bool.not_true, if_false,
        Bool.false_eq_true, mapGet_cons, if_neg hne]
      exact ih
    · have : (!(e.1 == k)) = true := by simp [he]
      simp only [List.filter_cons, this, if_true, mapGet_cons]
      split
      · rfl
      · exact ih

theorem mapGet_mapSet_ne {β : Type} (m : List (String × β)) (k k' : String) (v : β)
    (h : k' ≠ k) : mapGet (mapSet m k v) k' = mapGet m k' := by
  rw [mapSet, mapGet_cons, if_neg (fun h' : k = k' => h h'.symm)]
  exact mapGet_filter_ne m k k' h

@[simp] theorem mapGet_mapDel_self {β : Type} (m : List (String × β)) (k : String) :
    mapGet (mapDel m k) k = none := by
  induction m with
  | nil => rfl
  | cons e rest ih =>
    by_cases he : e.1 = k
    · simpa [mapDel, List.filter_cons, he] using ih
    · simpa [mapDel, List.filter_cons, he, mapGet_cons] using ih

theorem mapGet_mapDel_ne {β : Type} (m : List (String × β)) (k k' : String) (h : k' ≠ k) :
    mapGet (mapDel m k) k' = mapGet m k' :=
  mapGet_filter_ne m k k' h

theorem mapGet_mapAdjust_self {β : Type} (m : List (String × β)) (k : String) (f : β → β) :
    mapGet (mapAdjust m k f) k = (mapGet m k).map f := by
  induction m with
  | nil => rfl
  | cons e rest ih =>
    by_cases he : e.1 = k
    · simp [mapAdjust, he, mapGet_cons]
    · simp only [mapAdjust, List.map_cons, if_neg he] at *
      simpa [mapGet_cons, he] using ih

theorem mapGet_mapAdjust_ne {β : Type} (m : List (String × β)) (k k' : String) (f : β → β)
    (h : k' ≠ k) : mapGet (mapAdjust m k f) k' = mapGet m k' := by
  induction m with
  | nil => rfl
  | cons e rest ih =>
    by_cases he : e.1 = k
    · have hne : ¬ e.1 = k' := fun hk => h (hk ▸ he)
      rw [mapAdjust, List.map_cons, if_pos he, mapGet_cons, mapGet_cons, if_neg hne,
        if_neg hne]
      exact ih
    · rw [mapAdjust, List.map_cons, if_neg he, mapGet_cons, mapGet_cons]
      split
      · rfl
      · exact ih

theorem mapGet_eq_none_iff {β : Type} (m : List (String × β)) (k : String) :
    mapGet m k = none ↔ ∀ e ∈ m, e.1 ≠ k := by
  induction m with
  | nil => simp
  | cons e rest ih =>
    rw [mapGet_cons]
    by_cases he : e.1 = k
    · simp [he]
    · simp [he, ih]

theorem mapDel_eq_self_of_none {β : Type} (m : List (String × β)) (k : String)
    (h : mapGet m k = none) : mapDel m k = m := by
  rw [mapDel, List.filter_eq_self]
  intro e he
  have := (mapGet_eq_none_iff m k).1 h e he
  simpa using this

theorem length_filter_le_of_imp {α : Type} (l : List α) (p q : α → Bool)
    (h : ∀ a, p a = true → q a = true) :
    (l.filter p).length ≤ (l.filter q).length := by
  induction l with
  | nil => simp
  | cons a rest ih =>
    by_cases hp : p a = true
    · simp only [List.filter_cons, hp, h a hp, if_true, List.length_cons]
      omega
    · simp only [List.filter_cons, hp, if_false, Bool.false_eq_true]
      by_cases hq : q a = true
      · simp only [hq, if_true, List.length_cons]
        omega
      · simp only [hq, if_false, Bool.false_eq_true]
        exact ih

theorem filter_succ_length_lt (al : List Nat) (s : Nat) (hs : s ∈ al) :
    (al.filter (fun a => decide (s + 1 ≤ a))).length <
      (al.filter (fun a => decide (s ≤ a))).length := by
  induction al with
  | nil => cases hs
  | cons a rest ih =>
    rcases List.mem_cons.1 hs with rfl | ha
    · have hmono := length_filter_le_of_imp rest (fun b => decide (s + 1 ≤ b))
        (fun b => decide (s ≤ b))
        (by intro b hb; simp only [decide_eq_true_eq] at *; omega)
      simp only [List.filter_cons, decide_eq_true_eq]
      rw [if_neg (by omega), if_pos (by omega)]
      simp only [List.length_cons]
      omega
    · have hrec := ih ha
      simp only [List.filter_cons, decide_eq_true_eq]
      by_cases h1 : s + 1 ≤ a
      · rw [if_pos h1, if_pos (by omega)]
        simp only [List.length_cons]
        omega
      · rw [if_neg h1]
        by_cases h2 : s ≤ a
        · rw [if_pos h2]
          simp only [List.length_cons]
          omega
        · rw [if_neg h2]
          exact hrec

/-- With enough fuel, `scanPort` finds exactly the least free port at or above
`start`. -/
theorem scanPort_spec (al : List Nat) (start fuel : Nat)
    (h : (al.filter (fun a => decide (start ≤ a))).length < fuel) :
    scanPort al start fuel ∉ al ∧ start ≤ scanPort al start fuel ∧
      ∀ q, start ≤ q → q < scanPort al start fuel → q ∈ al := by
  induction fuel generalizing start with
  | zero => omega
  | succ fuel ih =>
    rw [scanPort]
    by_cases hmem : start ∈ al
    · rw [if_pos hmem]
      have hlt := filter_succ_length_lt al start hmem
      obtain ⟨h1, h2, h3⟩ := ih (start + 1) (by omega)
      refine ⟨h1, by omega, ?_⟩
      intro q hq1 hq2
      rcases Nat.eq_or_lt_of_le hq1 with he | hl
      · exact he ▸ hmem
      · exact h3 q hl hq2
    · rw [if_neg hmem]
      exact ⟨hmem, Nat.le_refl _, fun q hq1 hq2 => absurd hq1 (by omega)⟩

theorem allocate_fresh (p : PortAllocater) (uid : String)
    (h : mapGet p.mapping uid = none) : IsLeastFree p (p.Allocate uid).1 := by
  have hfuel : (p.allocated.filter (fun a => decide (p.allocStart ≤ a))).length <
      p.allocated.length + 1 :=
    Nat.lt_succ_of_le (List.length_filter_le _ _)
  have := scanPort_spec p.allocated p.allocStart (p.allocated.length + 1) hfuel
  rw [PortAllocater.Allocate, h]
  exact this

theorem allocate_preserves_bij (p : PortAllocater) (uid : String) (hb : p.Bij) :
    (p.Allocate uid).2.Bij := by
  obtain ⟨hfun, hinj, hrange⟩ := hb
  cases hm : mapGet p.mapping uid with
  | some port =>
    rw [PortAllocater.Allocate, hm]
    exact ⟨hfun, hinj, hrange⟩
  | none =>
    have hfresh := allocate_fresh p uid hm
    rw [PortAllocater.Allocate, hm] at hfresh ⊢
    simp only at hfresh ⊢
    set port := scanPort p.allocated p.allocStart (p.allocated.length + 1) with hport
    obtain ⟨hnotmem, _, _⟩ := hfresh
    have hget : ∀ u, mapGet (mapSet p.mapping uid port) u =
        if u = uid then some port else mapGet p.mapping u := by
      intro u
      by_cases hu : u = uid
      · rw [hu, if_pos rfl, mapGet_mapSet_self]
      · rw [if_neg hu, mapGet_mapSet_ne _ _ _ _ hu]
    refine ⟨?_, ?_, ?_⟩
    · intro u q1 q2 h1 h2
      rw [h1] at h2
      exact Option.some_inj.1 h2
    · intro u v q hu hv
      rw [hget] at hu hv
      by_cases h1 : u = uid <;> by_cases h2 : v = uid
      · rw [h1, h2]
      · rw [if_pos h1] at hu
        rw [if_neg h2] at hv
        have hq : q = port := (Option.some_inj.1 hu.symm)
        exact absurd ((hrange q).2 ⟨v, hv⟩) (hq ▸ hnotmem)
      · rw [if_neg h1] at hu
        rw [if_pos h2] at hv
        have hq : q = port := (Option.some_inj.1 hv.symm)
        exact absurd ((hrange q).2 ⟨u, hu⟩) (hq ▸ hnotmem)
      · rw [if_neg h1] at hu
        rw [if_neg h2] at hv
        exact hinj u v q hu hv
    · intro q
      constructor
      · intro hq
        rcases List.mem_cons.1 hq with rfl | hq
        · exact ⟨uid, by rw [hget, if_pos rfl]⟩
        · obtain ⟨u, hu⟩ := (hrange q).1 hq
          refine ⟨u, ?_⟩
          rw [hget, if_neg (fun h => by rw [h, hm] at hu; cases hu)]
          exact hu
      · rintro ⟨u, hu⟩
        rw [hget] at hu
        by_cases h1 : u = uid
        · rw [if_pos h1] at hu
          exact (Option.some_inj.1 hu) ▸ List.mem_cons_self _ _
        · rw [if_neg h1] at hu
          exact List.mem_cons_of_mem _ ((hrange q).2 ⟨u, hu⟩)

theorem deallocate_preserves_bij (p : PortAllocater) (uid : String) (hb : p.Bij) :
    (p.Deallocate uid).Bij := by
  obtain ⟨hfun, hinj, hrange⟩ := hb
  cases hm : mapGet p.mapping uid with
  | none =>
    rw [PortAllocater.Deallocate, hm]
    exact ⟨hfun, hinj, hrange⟩
  | some port =>
    rw [PortAllocater.Deallocate, hm]
    have hget : ∀ u, mapGet (mapDel p.mapping uid) u =
        if u = uid then none else mapGet p.mapping u := by
      intro u
      by_cases hu : u = uid
      · rw [hu, if_pos rfl, mapGet_mapDel_self]
      · rw [if_neg hu, mapGet_mapDel_ne _ _ _ hu]
    refine ⟨?_, ?_, ?_⟩
    · intro u q1 q2 h1 h2
      rw [h1] at h2
      exact Option.some_inj.1 h2
    · intro u v q hu hv
      rw [hget] at hu hv
      by_cases h1 : u = uid
      · rw [if_pos h1] at hu; cases hu
      · by_cases h2 : v = uid
        · rw [if_pos h2] at hv; cases hv
        · rw [if_neg h1] at hu
          rw [if_neg h2] at hv
          exact hinj u v q hu hv
    · intro q
      simp only [List.mem_filter, Bool.not_eq_eq_eq_not, Bool.not_true, beq_eq_false_iff_ne,
        ne_eq, decide_eq_true_eq]
      constructor
      · rintro ⟨hq, hqne⟩
        obtain ⟨u, hu⟩ := (hrange q).1 hq
        have hune : u ≠ uid := by
          intro h
          rw [h, hm] at hu
          exact hqne (Option.some_inj.1 hu).symm
        exact ⟨u, by rw [hget, if_neg hune]; exact hu⟩
      · rintro ⟨u, hu⟩
        rw [hget] at hu
        by_cases h1 : u = uid
        · rw [if_pos h1] at hu; cases hu
        · rw [if_neg h1] at hu
          refine ⟨(hrange q).2 ⟨u, hu⟩, ?_⟩
          intro h
          exact h1 (hinj u uid q hu (h ▸ hm))

/-! ## Operation-level lemmas -/

theorem mem_addKey (l : List String) (k k' : String) :
    k' ∈ addKey l k ↔ k' = k ∨ k' ∈ l := by
  rw [addKey]
  split
  · constructor
    · exact Or.inr
    · rintro (rfl | h)
      · assumption
      · exact h
  · simp [List.mem_cons]

theorem mem_removeKey (l : List String) (k k' : String) :
    k' ∈ removeKey l k ↔ k' ∈ l ∧ k' ≠ k := by
  simp [removeKey, List.mem_filter]

theorem hasUid_eq_isSome (c : ClusterIndexer) (ctx uid : String) :
    hasUid c.clusterTree ctx uid = (lookupTree c ctx uid).isSome := by
  rw [hasUid, lookupTree, treeGet]
  cases hm : mapGet c.clusterTree ctx <;> rfl

theorem deallocate_mapGet (p : PortAllocater) (uid v : String) :
    mapGet (p.Deallocate uid).mapping v =
      if v = uid then none else mapGet p.mapping v := by
  cases hm : mapGet p.mapping uid with
  | none =>
    rw [PortAllocater.Deallocate, hm]
    by_cases hv : v = uid
    · rw [if_pos hv, hv, hm]
    · rw [if_neg hv]
  | some port =>
    rw [PortAllocater.Deallocate, hm]
    by_cases hv : v = uid
    · rw [if_pos hv, hv]
      exact mapGet_mapDel_self p.mapping uid
    · rw [if_neg hv]
      exact mapGet_mapDel_ne p.mapping uid v hv

theorem allocate_mapGet (p : PortAllocater) (uid v : String) :
    mapGet (p.Allocate uid).2.mapping v =
      if v = uid then some (p.Allocate uid).1 else mapGet p.mapping v := by
  cases hm : mapGet p.mapping uid with
  | some port =>
    rw [PortAllocater.Allocate, hm]
    by_cases hv : v = uid
    · rw [if_pos hv, hv, hm]
    · rw [if_neg hv]
  | none =>
    rw [PortAllocater.Allocate, hm]
    by_cases hv : v = uid
    · rw [if_pos hv, hv]
      exact mapGet_mapSet_self _ _ _
    · rw [if_neg hv]
      exact mapGet_mapSet_ne _ _ _ _ hv

theorem allocate_allocStart (p : PortAllocater) (uid : String) :
    (p.Allocate uid).2.allocStart = p.allocStart := by
  cases hm : mapGet p.mapping uid <;> rw [PortAllocater.Allocate, hm]

theorem storeCluster_portAlloc (c : ClusterIndexer) (h : RayClusterHandle) :
    (c.storeCluster h).portAlloc = c.portAlloc := by
  rw [ClusterIndexer.storeCluster]
  cases mapGet c.clusterTree h.contextName <;> rfl

theorem storeCluster_stopFns (c : ClusterIndexer) (h : RayClusterHandle) :
    (c.storeCluster h).forwardStopFns = c.forwardStopFns := by
  rw [ClusterIndexer.storeCluster]
  cases mapGet c.clusterTree h.contextName <;> rfl

theorem storeCluster_tree_none (c : ClusterIndexer) (h : RayClusterHandle)
    (hm : mapGet c.clusterTree h.contextName = none) :
    (c.storeCluster h).clusterTree = (h.contextName, [(h.uid, h)]) :: c.clusterTree := by
  rw [ClusterIndexer.storeCluster, hm]

theorem storeCluster_tree_some (c : ClusterIndexer) (h : RayClusterHandle)
    (sub : List (String × RayClusterHandle))
    (hm : mapGet c.clusterTree h.contextName = some sub) :
    (c.storeCluster h).clusterTree =
      mapAdjust c.clusterTree h.contextName (fun s => mapSet s h.uid h) := by
  rw [ClusterIndexer.storeCluster, hm]

theorem treeGet_adjustDel (tree : List (String × List (String × RayClusterHandle)))
    (ctx uid ctx' uid' : String) :
    treeGet (mapAdjust tree ctx (fun s => mapDel s uid)) ctx' uid' =
      if ctx' = ctx ∧ uid' = uid then none else treeGet tree ctx' uid' := by
  by_cases hc : ctx' = ctx
  · subst hc
    rw [treeGet, treeGet, mapGet_mapAdjust_self]
    cases hm : mapGet tree ctx' with
    | none => simp [ite_self]
    | some sub =>
      simp only [Option.map_some', Option.some_bind]
      by_cases hu : uid' = uid
      · simp [hu, mapGet_mapDel_self]
      · simp [hu, mapGet_mapDel_ne sub uid uid' hu]
  · rw [if_neg (fun hand => hc hand.1), treeGet, treeGet,
      mapGet_mapAdjust_ne tree ctx ctx' _ hc]

theorem lookupTree_storeCluster (c : ClusterIndexer) (h : RayClusterHandle)
    (ctx uid : String) :
    lookupTree (c.storeCluster h) ctx uid =
      if ctx = h.contextName ∧ uid = h.uid then some h
      else lookupTree c ctx uid := by
  rw [lookupTree, lookupTree]
  cases hm : mapGet c.clusterTree h.contextName with
  | none =>
    rw [storeCluster_tree_none c h hm]
    by_cases hc : ctx = h.contextName
    · subst hc
      by_cases hu : uid = h.uid
      · rw [if_pos (show h.contextName = h.contextName ∧ uid = h.uid from ⟨rfl, hu⟩), hu]
        simp [treeGet, mapGet_cons]
      · have hu' : ¬ h.uid = uid := fun hh => hu hh.symm
        rw [if_neg (fun hand => hu hand.2)]
        simp [treeGet, mapGet_cons, hu', hm]
    · have hc' : ¬ h.contextName = ctx := fun hh => hc hh.symm
      rw [if_neg (fun hand => hc hand.1)]
      simp [treeGet, mapGet_cons, hc']
  | some sub =>
    rw [storeCluster_tree_some c h sub hm]
    by_cases hc : ctx = h.contextName
    · subst hc
      rw [treeGet, treeGet, mapGet_mapAdjust_self, hm, Option.map_some',
        Option.some_bind, Option.some_bind]
      by_cases hu : uid = h.uid
      · rw [if_pos (show h.contextName = h.contextName ∧ uid = h.uid from ⟨rfl, hu⟩), hu]
        exact mapGet_mapSet_self sub h.uid h
      · rw [if_neg (fun hand => hu hand.2)]
        exact mapGet_mapSet_ne sub h.uid uid h hu
    · rw [if_neg (fun hand => hc hand.1), treeGet, treeGet,
        mapGet_mapAdjust_ne _ _ _ _ hc]

theorem insert_of_present (c : ClusterIndexer) (h : RayClusterHandle)
    (hp : hasUid c.clusterTree h.contextName h.uid = true) : c.Insert h = c := by
  rw [ClusterIndexer.Insert, if_pos hp]

theorem insert_portAlloc_of_absent (c : ClusterIndexer) (h : RayClusterHandle)
    (hp : hasUid c.clusterTree h.contextName h.uid = false) :
    (c.Insert h).portAlloc = (c.portAlloc.Allocate h.uid).2 := by
  rw [ClusterIndexer.Insert, if_neg (by simp [hp])]
  simp only [storeCluster_portAlloc]

theorem insert_stopFns_of_absent (c : ClusterIndexer) (h : RayClusterHandle)
    (hp : hasUid c.clusterTree h.contextName h.uid = false) :
    (c.Insert h).forwardStopFns = addKey c.forwardStopFns h.uid := by
  rw [ClusterIndexer.Insert, if_neg (by simp [hp])]
  simp only [storeCluster_stopFns]

theorem insert_lookupTree_of_absent (c : ClusterIndexer) (h : RayClusterHandle)
    (hp : hasUid c.clusterTree h.contextName h.uid = false) (ctx uid : String) :
    lookupTree (c.Insert h) ctx uid =
      if ctx = h.contextName ∧ uid = h.uid then
        some { h with port := some (c.portAlloc.Allocate h.uid).1 }
      else lookupTree c ctx uid := by
  rw [ClusterIndexer.Insert, if_neg (by simp [hp])]
  have hsc := lookupTree_storeCluster { c with portAlloc := (c.portAlloc.Allocate h.uid).2 }
    { h with port := some (c.portAlloc.Allocate h.uid).1 } ctx uid
  simp only [lookupTree, treeGet] at hsc ⊢
  exact hsc

theorem delete_eq_none_iff (c : ClusterIndexer) (ctx uid : String) :
    c.Delete ctx uid = none ↔ uid ∉ c.forwardStopFns := by
  rw [ClusterIndexer.Delete]
  by_cases hm : uid ∈ c.forwardStopFns
  · rw [if_pos hm]
    cases mapGet c.clusterTree ctx <;> simp [hm]
  · rw [if_neg hm]
    simp [hm]

theorem delete_portAlloc (c c' : ClusterIndexer) (ctx uid : String)
    (hd : c.Delete ctx uid = some c') : c'.portAlloc = c.portAlloc.Deallocate uid := by
  rw [ClusterIndexer.Delete] at hd
  by_cases hm : uid ∈ c.forwardStopFns
  · rw [if_pos hm] at hd
    cases hsub : mapGet c.clusterTree ctx with
    | none =>
      rw [hsub] at hd
      cases hd
      rfl
    | some sub =>
      rw [hsub] at hd
      cases hd
      rfl
  · rw [if_neg hm] at hd
    cases hd

theorem delete_stopFns (c c' : ClusterIndexer) (ctx uid : String)
    (hd : c.Delete ctx uid = some c') :
    c'.forwardStopFns = removeKey c.forwardStopFns uid := by
  rw [ClusterIndexer.Delete] at hd
  by_cases hm : uid ∈ c.forwardStopFns
  · rw [if_pos hm] at hd
    cases hsub : mapGet c.clusterTree ctx with
    | none =>
      rw [hsub] at hd
      cases hd
      rfl
    | some sub =>
      rw [hsub] at hd
      cases hd
      rfl
  · rw [if_neg hm] at hd
    cases hd

theorem delete_lookupTree (c c' : ClusterIndexer) (ctx uid : String)
    (hd : c.Delete ctx uid = some c') (ctx' uid' : String) :
    lookupTree c' ctx' uid' =
      if ctx' = ctx ∧ uid' = uid then none else lookupTree c ctx' uid' := by
  rw [ClusterIndexer.Delete] at hd
  by_cases hm : uid ∈ c.forwardStopFns
  · rw [if_pos hm] at hd
    cases hsub : mapGet c.clusterTree ctx with
    | none =>
      rw [hsub] at hd
      cases hd
      rw [lookupTree, lookupTree]
      by_cases hc : ctx' = ctx
      · by_cases hu : uid' = uid
        · rw [if_pos (show ctx' = ctx ∧ uid' = uid from ⟨hc, hu⟩), treeGet]
          simp [hc, hsub]
        · rw [if_neg (fun hand => hu hand.2)]
      · rw [if_neg (fun hand => hc hand.1)]
    | some sub =>
      rw [hsub] at hd
      cases hd
      rw [lookupTree, lookupTree]
      exact treeGet_adjustDel c.clusterTree ctx uid ctx' uid'
  · rw [if_neg hm] at hd
    cases hd

/-! ## `DeleteContext` fold lemmas -/

theorem foldDeletes_mapping_none (name : String) (l : List String) :
    ∀ c cf : ClusterIndexer, foldDeletes name c l = some cf →
      (∀ u ∈ l, mapGet cf.portAlloc.mapping u = none) ∧
      (∀ v, mapGet c.portAlloc.mapping v = none →
        mapGet cf.portAlloc.mapping v = none) := by
  induction l with
  | nil =>
    intro c cf hf
    cases hf
    exact ⟨fun u hu => absurd hu (List.not_mem_nil u), fun v hv => hv⟩
  | cons uid rest ih =>
    intro c cf hf
    rw [foldDeletes] at hf
    cases hd : c.Delete name uid with
    | none => rw [hd] at hf; cases hf
    | some c1 =>
      rw [hd] at hf
      obtain ⟨ih1, ih2⟩ := ih c1 cf hf
      have hpa := delete_portAlloc c c1 name uid hd
      have hmap : ∀ v, mapGet c1.portAlloc.mapping v =
          if v = uid then none else mapGet c.portAlloc.mapping v := by
        intro v
        rw [hpa]
        exact deallocate_mapGet c.portAlloc uid v
      constructor
      · intro u hu
        rcases List.mem_cons.1 hu with rfl | hu
        · exact ih2 u (by rw [hmap, if_pos rfl])
        · exact ih1 u hu
      · intro v hv
        refine ih2 v ?_
        rw [hmap]
        split
        · rfl
        · exact hv

theorem deleteContext_portAlloc_bij (c c' : ClusterIndexer) (name : String)
    (hd : c.DeleteContext name = some c') (hb : c.portAlloc.Bij) : c'.portAlloc.Bij := by
  rw [ClusterIndexer.DeleteContext] at hd
  suffices hfold : ∀ (l : List String) (d df : ClusterIndexer),
      foldDeletes name d l = some df → d.portAlloc.Bij → df.portAlloc.Bij by
    cases hf : foldDeletes name c (ctxUids c name) with
    | none => rw [hf] at hd; cases hd
    | some cm =>
      rw [hf] at hd
      cases hd
      exact hfold _ c cm hf hb
  intro l
  induction l with
  | nil =>
    intro d df hf hbd
    cases hf
    exact hbd
  | cons uid rest ih =>
    intro d df hf hbd
    rw [foldDeletes] at hf
    cases hdel : d.Delete name uid with
    | none => rw [hdel] at hf; cases hf
    | some d1 =>
      rw [hdel] at hf
      refine ih d1 df hf ?_
      rw [delete_portAlloc d d1 name uid hdel]
      exact deallocate_preserves_bij d.portAlloc uid hbd

/-- C1: after any sequence of registry operations from the empty registry, the
allocator's state is a partial bijection: `mapping` is functional (no uid maps
to two ports), injective (no port is mapped from two uids), and the taken-port
set is exactly the range of the mapping. -/
theorem reachable_portAlloc_bij (base : Nat) (c : ClusterIndexer)
    (hr : Reachable base c) : c.portAlloc.Bij := by
  induction hr with
  | init =>
    refine ⟨?_, ?_, ?_⟩
    · intro u q1 q2 h1 h2
      cases h1
    · intro u v q h1 h2
      cases h1
    · intro q
      constructor
      · intro hq
        cases hq
      · rintro ⟨u, hu⟩
        cases hu
  | insert c h _ ih =>
    cases hp : hasUid c.clusterTree h.contextName h.uid with
    | true => rw [insert_of_present c h hp]; exact ih
    | false =>
      have := insert_portAlloc_of_absent c h hp
      rw [this]
      exact allocate_preserves_bij c.portAlloc h.uid ih
  | delete c c' ctx uid _ hd ih =>
    rw [delete_portAlloc c c' ctx uid hd]
    exact deallocate_preserves_bij c.portAlloc uid ih
  | deleteContext c c' name _ hd ih =>
    exact deleteContext_portAlloc_bij c c' name hd ih

/-- C5: whenever `DeleteContext(name)` completes, the context key is gone from
the `List()` snapshot and the allocator holds no mapping for any uid that was
stored under the context before the call. -/
theorem deleteContext_post (c : ClusterIndexer) (name : String) (c' : ClusterIndexer)
    (hd : c.DeleteContext name = some c') :
    mapGet c'.List name = none ∧
      ∀ uid ∈ ctxUids c name, mapGet c'.portAlloc.mapping uid = none := by
  rw [ClusterIndexer.DeleteContext] at hd
  cases hf : foldDeletes name c (ctxUids c name) with
  | none => rw [hf] at hd; cases hd
  | some cm =>
    rw [hf] at hd
    cases hd
    constructor
    · rw [ClusterIndexer.List]
      exact mapGet_mapDel_self cm.clusterTree name
    · intro uid hu
      exact (foldDeletes_mapping_none name (ctxUids c name) c cm hf).1 uid hu

/-! ## Insert idempotence and Delete on absent uids -/

/-- C2: inserting a handle twice with the same `(contextName, uid)` leaves the
registry state (tree, port mapping, stop functions) identical to inserting it
once; the second `Insert` hits the duplicate check and returns unchanged. -/
theorem insert_insert_eq (c : ClusterIndexer) (h h' : RayClusterHandle)
    (hctx : h'.contextName = h.contextName) (huid : h'.uid = h.uid) :
    (c.Insert h).Insert h' = c.Insert h := by
  have hpresent : hasUid (c.Insert h).clusterTree h'.contextName h'.uid = true := by
    rw [hctx, huid, hasUid_eq_isSome]
    cases hp : hasUid c.clusterTree h.contextName h.uid with
    | true =>
      rw [insert_of_present c h hp, ← hasUid_eq_isSome, hp]
    | false =>
      rw [insert_lookupTree_of_absent c h hp h.contextName h.uid,
        if_pos (show h.contextName = h.contextName ∧ h.uid = h.uid from ⟨rfl, rfl⟩)]
      rfl
  rw [ClusterIndexer.Insert, if_pos hpresent]

/-- C3 (amended): `Delete(contextName, uid)` with `uid` not stored under
`contextName` panics on the `nil` stop function when no stop function is
recorded for `uid` (in particular for a uid never inserted); when a stop
function is recorded (uid present under a different context) the call does not
fail, the tree lookup is everywhere unchanged, and the port deallocation is a
no-op exactly when `uid` has no mapping — but the stop function is removed and
a mapped port is actually deallocated rather than being harmless no-ops. -/
theorem delete_absent_behaviour (c : ClusterIndexer) (ctx uid : String) :
    (uid ∉ c.forwardStopFns → c.Delete ctx uid = none) ∧
    (uid ∈ c.forwardStopFns → hasUid c.clusterTree ctx uid = false →
      ∃ c', c.Delete ctx uid = some c' ∧
        c'.portAlloc = c.portAlloc.Deallocate uid ∧
        c'.forwardStopFns = removeKey c.forwardStopFns uid ∧
        (∀ k u, lookupTree c' k u = lookupTree c k u) ∧
        (mapGet c.portAlloc.mapping uid = none → c'.portAlloc = c.portAlloc)) := by
  constructor
  · exact fun hm => (delete_eq_none_iff c ctx uid).2 hm
  · intro hm hfalse
    cases hd : c.Delete ctx uid with
    | none => exact absurd ((delete_eq_none_iff c ctx uid).1 hd) (by simp [hm])
    | some c' =>
      refine ⟨c', rfl, delete_portAlloc c c' ctx uid hd,
        delete_stopFns c c' ctx uid hd, ?_, ?_⟩
      · intro k u
        rw [delete_lookupTree c c' ctx uid hd k u]
        by_cases hcond : k = ctx ∧ u = uid
        · rw [if_pos hcond]
          obtain ⟨rfl, rfl⟩ := hcond
          have h2 := hasUid_eq_isSome c k u
          rw [hfalse] at h2
          cases hl : lookupTree c k u with
          | none => rfl
          | some v =>
            rw [hl] at h2
            simp at h2
        · rw [if_neg hcond]
      · intro hnone
        rw [delete_portAlloc c c' ctx uid hd, PortAllocater.Deallocate, hnone]

/-! ## Registry invariant preservation -/

theorem treeGet_mapDel_top (tree : List (String × List (String × RayClusterHandle)))
    (name k u : String) :
    treeGet (mapDel tree name) k u = if k = name then none else treeGet tree k u := by
  by_cases hk : k = name
  · rw [if_pos hk, hk, treeGet, mapGet_mapDel_self]
    rfl
  · rw [if_neg hk, treeGet, treeGet, mapGet_mapDel_ne tree name k hk]

theorem isSome_mapGet_of_mem_keys {β : Type} (m : List (String × β)) (u : String)
    (hu : u ∈ m.map Prod.fst) : (mapGet m u).isSome = true := by
  induction m with
  | nil => cases hu
  | cons e rest ih =>
    rw [mapGet_cons]
    by_cases he : e.1 = u
    · rw [if_pos he]
      rfl
    · rw [if_neg he]
      rcases List.mem_cons.1 hu with hh | hh
      · exact absurd hh.symm he
      · exact ih hh

theorem mem_ctxUids_isSome (c : ClusterIndexer) (name u : String)
    (hu : u ∈ ctxUids c name) : (lookupTree c name u).isSome = true := by
  rw [ctxUids] at hu
  cases hm : mapGet c.clusterTree name with
  | none => rw [hm] at hu; cases hu
  | some sub =>
    rw [hm] at hu
    rw [lookupTree, treeGet, hm, Option.some_bind]
    exact isSome_mapGet_of_mem_keys sub u hu

theorem hasUid_false_lookup_none (c : ClusterIndexer) (ctx uid : String)
    (hp : hasUid c.clusterTree ctx uid = false) : lookupTree c ctx uid = none := by
  have h2 := hasUid_eq_isSome c ctx uid
  rw [hp] at h2
  cases hl : lookupTree c ctx uid with
  | none => rfl
  | some v => rw [hl] at h2; simp at h2

theorem insert_goodstate (c : ClusterIndexer) (h : RayClusterHandle)
    (hg : GoodState c)
    (hcond : ∀ ctx', ctx' ≠ h.contextName → lookupTree c ctx' h.uid = none) :
    GoodState (c.Insert h) := by
  obtain ⟨hok, huniq⟩ := hg
  cases hp : hasUid c.clusterTree h.contextName h.uid with
  | true => rw [insert_of_present c h hp]; exact ⟨hok, huniq⟩
  | false =>
    have hall : ∀ ctx', lookupTree c ctx' h.uid = none := by
      intro ctx'
      by_cases hc : ctx' = h.contextName
      · rw [hc]
        exact hasUid_false_lookup_none c h.contextName h.uid hp
      · exact hcond ctx' hc
    have hlook := insert_lookupTree_of_absent c h hp
    have hpa := insert_portAlloc_of_absent c h hp
    have hfns := insert_stopFns_of_absent c h hp
    have hmap : ∀ v, mapGet (c.Insert h).portAlloc.mapping v =
        if v = h.uid then some (c.portAlloc.Allocate h.uid).1
        else mapGet c.portAlloc.mapping v := by
      intro v
      rw [hpa]
      exact allocate_mapGet c.portAlloc h.uid v
    constructor
    · intro ctx uid hh hget
      rw [hlook ctx uid] at hget
      by_cases hcnd : ctx = h.contextName ∧ uid = h.uid
      · rw [if_pos hcnd] at hget
        obtain ⟨hc1, hc2⟩ := hcnd
        cases hget
        refine ⟨hc2.symm, hc1.symm, ⟨(c.portAlloc.Allocate h.uid).1, rfl, ?_⟩, ?_⟩
        · rw [hmap, if_pos hc2]
        · rw [hfns, hc2]
          exact (mem_addKey c.forwardStopFns h.uid h.uid).2 (Or.inl rfl)
      · rw [if_neg hcnd] at hget
        obtain ⟨h1, h2, ⟨q, hq1, hq2⟩, h4⟩ := hok ctx uid hh hget
        have hune : uid ≠ h.uid := by
          intro he
          rw [he] at hget
          rw [hall ctx] at hget
          cases hget
        refine ⟨h1, h2, ⟨q, hq1, ?_⟩, ?_⟩
        · rw [hmap, if_neg hune]
          exact hq2
        · rw [hfns]
          exact (mem_addKey c.forwardStopFns h.uid uid).2 (Or.inr h4)
    · intro ctx1 ctx2 uid hs1 hs2
      rw [hlook ctx1 uid] at hs1
      rw [hlook ctx2 uid] at hs2
      by_cases hc1 : ctx1 = h.contextName ∧ uid = h.uid
      · by_cases hc2 : ctx2 = h.contextName ∧ uid = h.uid
        · rw [hc1.1, hc2.1]
        · rw [if_neg hc2] at hs2
          rw [hc1.2] at hs2
          rw [hall ctx2] at hs2
          cases hs2
      · rw [if_neg hc1] at hs1
        by_cases hc2 : ctx2 = h.contextName ∧ uid = h.uid
        · rw [hc2.2] at hs1
          rw [hall ctx1] at hs1
          cases hs1
        · rw [if_neg hc2] at hs2
          exact huniq ctx1 ctx2 uid hs1 hs2

theorem delete_goodstate (c c' : ClusterIndexer) (ctx uid : String)
    (hg : GoodState c) (hd : c.Delete ctx uid = some c')
    (hcond : ∀ ctx', ctx' ≠ ctx → lookupTree c ctx' uid = none) :
    GoodState c' := by
  obtain ⟨hok, huniq⟩ := hg
  have hlook := delete_lookupTree c c' ctx uid hd
  have hpa := delete_portAlloc c c' ctx uid hd
  have hfns := delete_stopFns c c' ctx uid hd
  have hmap : ∀ v, mapGet c'.portAlloc.mapping v =
      if v = uid then none else mapGet c.portAlloc.mapping v := by
    intro v
    rw [hpa]
    exact deallocate_mapGet c.portAlloc uid v
  constructor
  · intro k u hh hget
    rw [hlook k u] at hget
    by_cases hcnd : k = ctx ∧ u = uid
    · rw [if_pos hcnd] at hget
      cases hget
    · rw [if_neg hcnd] at hget
      obtain ⟨h1, h2, ⟨q, hq1, hq2⟩, h4⟩ := hok k u hh hget
      have hune : u ≠ uid := by
        intro he
        have hk : k ≠ ctx := fun hke => hcnd ⟨hke, he⟩
        rw [he] at hget
        rw [hcond k hk] at hget
        cases hget
      refine ⟨h1, h2, ⟨q, hq1, ?_⟩, ?_⟩
      · rw [hmap, if_neg hune]
        exact hq2
      · rw [hfns]
        exact (mem_removeKey c.forwardStopFns uid u).2 ⟨h4, hune⟩
  · intro ctx1 ctx2 u hs1 hs2
    rw [hlook ctx1 u] at hs1
    rw [hlook ctx2 u] at hs2
    by_cases hc1 : ctx1 = ctx ∧ u = uid
    · rw [if_pos hc1] at hs1
      cases hs1
    · by_cases hc2 : ctx2 = ctx ∧ u = uid
      · rw [if_pos hc2] at hs2
        cases hs2
      · rw [if_neg hc1] at hs1
        rw [if_neg hc2] at hs2
        exact huniq ctx1 ctx2 u hs1 hs2

theorem foldDeletes_goodstate (name : String) (l : List String) :
    ∀ c cf : ClusterIndexer, GoodState c →
      (∀ u ∈ l, ∀ ctx', ctx' ≠ name → lookupTree c ctx' u = none) →
      foldDeletes name c l = some cf → GoodState cf := by
  induction l with
  | nil =>
    intro c cf hg _ hf
    cases hf
    exact hg
  | cons uid rest ih =>
    intro c cf hg hcond hf
    rw [foldDeletes] at hf
    cases hd : c.Delete name uid with
    | none => rw [hd] at hf; cases hf
    | some c1 =>
      rw [hd] at hf
      have hg1 : GoodState c1 :=
        delete_goodstate c c1 name uid hg hd
          (fun ctx' hne => hcond uid (List.mem_cons_self uid rest) ctx' hne)
      refine ih c1 cf hg1 ?_ hf
      intro u hu ctx' hne
      rw [delete_lookupTree c c1 name uid hd ctx' u]
      by_cases hcnd : ctx' = name ∧ u = uid
      · exact absurd hcnd.1 hne
      · rw [if_neg hcnd]
        exact hcond u (List.mem_cons_of_mem uid hu) ctx' hne

theorem deleteContext_goodstate (c c' : ClusterIndexer) (name : String)
    (hg : GoodState c) (hd : c.DeleteContext name = some c') : GoodState c' := by
  rw [ClusterIndexer.DeleteContext] at hd
  cases hf : foldDeletes name c (ctxUids c name) with
  | none => rw [hf] at hd; cases hd
  | some cm =>
    rw [hf] at hd
    cases hd
    have hcond : ∀ u ∈ ctxUids c name, ∀ ctx', ctx' ≠ name →
        lookupTree c ctx' u = none := by
      intro u hu ctx' hne
      have hin := mem_ctxUids_isSome c name u hu
      cases hl : lookupTree c ctx' u with
      | none => rfl
      | some v =>
        have : ctx' = name := hg.2 ctx' name u (by rw [hl]; rfl) hin
        exact absurd this hne
    have hgm : GoodState cm := foldDeletes_goodstate name (ctxUids c name) c cm hg hcond hf
    constructor
    · intro k u hh hget
      rw [lookupTree, treeGet_mapDel_top] at hget
      by_cases hk : k = name
      · rw [if_pos hk] at hget
        cases hget
      · rw [if_neg hk] at hget
        exact hgm.1 k u hh hget
    · intro ctx1 ctx2 u hs1 hs2
      rw [lookupTree, treeGet_mapDel_top] at hs1 hs2
      by_cases hk1 : ctx1 = name
      · rw [if_pos hk1] at hs1
        cases hs1
      · by_cases hk2 : ctx2 = name
        · rw [if_pos hk2] at hs2
          cases hs2
        · rw [if_neg hk1] at hs1
          rw [if_neg hk2] at hs2
          exact hgm.2 ctx1 ctx2 u hs1 hs2

theorem reachableG_goodstate (base : Nat) (c : ClusterIndexer)
    (hr : ReachableG base c) : GoodState c := by
  induction hr with
  | init =>
    constructor
    · intro ctx uid hh hget
      cases hget
    · intro ctx1 ctx2 uid hs1 hs2
      cases hs1
  | insert c h _ hcond ih => exact insert_goodstate c h ih hcond
  | delete c c' ctx uid _ hsome hd ih =>
    refine delete_goodstate c c' ctx uid ih hd ?_
    intro ctx' hne
    cases hl : lookupTree c ctx' uid with
    | none => rfl
    | some v =>
      have : ctx' = ctx := ih.2 ctx' ctx uid (by rw [hl]; rfl) hsome
      exact absurd this hne
  | deleteContext c c' name _ hd ih => exact deleteContext_goodstate c c' name ih hd

/-! ## Claim theorems for the allocator, matcher, backoff and proxy -/

/-- C4: `Allocate` is idempotent on a mapped `uid` (returns the existing port,
state unchanged); on an unmapped `uid` it returns the smallest free port at or
above the configured base, marks it taken, records the mapping, and leaves the
base unchanged. -/
theorem allocate_spec (p : PortAllocater) (uid : String) :
    (∀ port, mapGet p.mapping uid = some port → p.Allocate uid = (port, p)) ∧
    (mapGet p.mapping uid = none →
      IsLeastFree p (p.Allocate uid).1 ∧
      (p.Allocate uid).2.allocated = (p.Allocate uid).1 :: p.allocated ∧
      (p.Allocate uid).2.mapping = mapSet p.mapping uid (p.Allocate uid).1 ∧
      (p.Allocate uid).2.allocStart = p.allocStart) := by
  constructor
  · intro port hm
    rw [PortAllocater.Allocate, hm]
  · intro hm
    refine ⟨allocate_fresh p uid hm, ?_, ?_, ?_⟩ <;> rw [PortAllocater.Allocate, hm]

/-- C6: `FuzzyMatch` returns exactly the stored handles whose cluster name
starts with the query (Go `strings.HasPrefix` on the name), and the empty
query returns every stored handle.  Ordering is tree iteration order. -/
theorem fuzzyMatch_spec (c : ClusterIndexer) (x : String) (h : RayClusterHandle) :
    (h ∈ c.FuzzyMatch x ↔ h ∈ allHandles c ∧ x.data.isPrefixOf h.rayClusterName.data = true) ∧
    c.FuzzyMatch "" = allHandles c := by
  constructor
  · rw [ClusterIndexer.FuzzyMatch]
    exact List.mem_filter
  · rw [ClusterIndexer.FuzzyMatch, List.filter_eq_self]
    intro a _
    have hdata : "".data = ([] : List Char) := rfl
    rw [hdata]
    exact List.isPrefixOf_nil_left

/-- C7: evaluation of the two backoff updates.  Variant A
(`src/unnamed/part_000`, `min(2*backoff, maxBackoff)`) doubles 10ms → 20ms →
40ms under immediate failures, caps at the 30s ceiling, and resets to 10ms
after a quiet gap; variant B (`src/unnamed/part_001`,
`max(2*backoff, maxBackoff)`) jumps from 10ms straight to its 5s ceiling
instead of doubling to 20ms. -/
theorem backoff_eval :
    nextBackoffA 0 10 = 20 ∧ nextBackoffA 0 20 = 40 ∧
    backoffSeqA 1 = 20 ∧ backoffSeqA 2 = 40 ∧ backoffSeqA 3 = 80 ∧
    nextBackoffA 0 16000 = 30000 ∧ nextBackoffA 0 30000 = 30000 ∧
    nextBackoffA 60001 20480 = 10 ∧
    nextBackoffB 0 10 = 5000 ∧ ¬ nextBackoffB 0 10 = 20 ∧
    nextBackoffB 30001 5000 = 10 := by
  decide

/-- C9: `handleProxy` resolves the `uid` through the registry's port lookup:
an empty `uid` or an unmapped `uid` yields a 400 client error and no forward;
a mapped `uid` forwards to the mapped local port; every error it produces is
an HTTP 4xx. -/
theorem handleProxy_spec (p : PortAllocater) (uid : String) :
    (uid = "" → handleProxy p uid = ProxyOutcome.clientError 400) ∧
    (mapGet p.mapping uid = none → handleProxy p uid = ProxyOutcome.clientError 400) ∧
    (∀ port, uid ≠ "" → mapGet p.mapping uid = some port →
      handleProxy p uid = ProxyOutcome.forward port) ∧
    (∀ s, handleProxy p uid = ProxyOutcome.clientError s → 400 ≤ s ∧ s < 500) := by
  refine ⟨?_, ?_, ?_, ?_⟩
  · intro he
    rw [handleProxy, if_pos he]
  · intro hm
    rw [handleProxy]
    by_cases he : uid = ""
    · rw [if_pos he]
    · rw [if_neg he, PortAllocater.Mapping, hm]
  · intro port hne hm
    rw [handleProxy, if_neg hne, PortAllocater.Mapping, hm]
  · intro s hs
    rw [handleProxy] at hs
    by_cases he : uid = ""
    · rw [if_pos he] at hs
      cases hs
      omega
    · rw [if_neg he, PortAllocater.Mapping] at hs
      cases hm : mapGet p.mapping uid with
      | none =>
        rw [hm] at hs
        cases hs
        omega
      | some port =>
        rw [hm] at hs
        cases hs

theorem isPrefixOf_decompose (sep : List Char) :
    ∀ l : List Char, sep.isPrefixOf l = true → l = sep ++ l.drop sep.length := by
  induction sep with
  | nil =>
    intro l _
    simp
  | cons s ss ih =>
    intro l hp
    cases l with
    | nil => cases hp
    | cons x xs =>
      rw [List.isPrefixOf_cons₂, Bool.and_eq_true] at hp
      obtain ⟨h1, h2⟩ := hp
      have hsx : s = x := by
        have := h1
        simpa using this
      have := ih xs h2
      rw [List.cons_append, List.length_cons, List.drop_succ_cons]
      rw [hsx]
      exact congrArg (x :: ·) this

theorem cutList_eq (sep : List Char) :
    ∀ body pre post : List Char, cutList sep body = some (pre, post) →
      body = pre ++ sep ++ post := by
  intro body
  induction body with
  | nil =>
    intro pre post h
    rw [cutList] at h
    by_cases hp : sep.isPrefixOf ([] : List Char) = true
    · rw [if_pos hp] at h
      cases h
      have := isPrefixOf_decompose sep [] hp
      simpa using this.symm
    · rw [if_neg hp] at h
      cases h
  | cons c rest ih =>
    intro pre post h
    rw [cutList] at h
    by_cases hp : sep.isPrefixOf (c :: rest) = true
    · rw [if_pos hp] at h
      cases h
      have := isPrefixOf_decompose sep (c :: rest) hp
      rw [List.nil_append]
      exact this
    · rw [if_neg hp] at h
      cases hcut : cutList sep rest with
      | none => rw [hcut] at h; cases h
      | some pr =>
        rw [hcut] at h
        cases h
        have := ih pr.1 pr.2 (by rw [hcut])
        rw [List.cons_append, List.cons_append]
        rw [List.append_assoc] at this ⊢
        exact congrArg (c :: ·) this

theorem baseSnippet_decompose (slug : String) :
    baseSnippet slug = headTag ++ ("<base href=\"/proxy/" ++ slug ++ "/\"/>").data := by
  rw [baseSnippet, headTag]
  have h1 : "<head><base href=\"/proxy/" ++ slug ++ "/\"/>" =
      "<head>" ++ ("<base href=\"/proxy/" ++ slug ++ "/\"/>") := by
    rw [← String.append_assoc, ← String.append_assoc]
    rfl
  rw [h1, String.data_append]

/-- C8: `addBase` leaves non-HTML responses byte-identical, passes HTML
with no opening head element through unmodified, and otherwise splices the
base-href snippet for `/proxy/{slug}/` directly after the first `<head>`,
recomputing `Content-Length` to the new body length. -/
theorem addBase_spec (slug : String) (resp : HttpResponse) :
    (¬ "text/html".data.isPrefixOf resp.contentType = true → addBase slug resp = resp) ∧
    (cutList headTag resp.body = none → addBase slug resp = resp) ∧
    (∀ pre post, "text/html".data.isPrefixOf resp.contentType = true →
      cutList headTag resp.body = some (pre, post) →
      resp.body = pre ++ headTag ++ post ∧
      (addBase slug resp).body =
        pre ++ headTag ++ ("<base href=\"/proxy/" ++ slug ++ "/\"/>").data ++ post ∧
      (addBase slug resp).contentLength = some ((addBase slug resp).body.length) ∧
      (addBase slug resp).contentType = resp.contentType) := by
  refine ⟨?_, ?_, ?_⟩
  · intro hhtml
    rw [addBase, if_pos (by simp [hhtml])]
  · intro hcut
    rw [addBase]
    by_cases hhtml : "text/html".data.isPrefixOf resp.contentType = true
    · rw [if_neg (by simp [hhtml]), hcut]
    · rw [if_pos (by simp [hhtml])]
  · intro pre post hhtml hcut
    have hbody := cutList_eq headTag resp.body pre post hcut
    have heq : addBase slug resp =
        { resp with body := pre ++ baseSnippet slug ++ post,
                    contentLength := some (pre ++ baseSnippet slug ++ post).length } := by
      rw [addBase, if_neg (by simp [hhtml]), hcut]
    refine ⟨hbody, ?_, ?_, ?_⟩
    · rw [heq]
      show pre ++ baseSnippet slug ++ post = _
      rw [baseSnippet_decompose]
      simp [List.append_assoc]
    · rw [heq]
    · rw [heq]

/-- C10 (amended): under operation sequences that respect the addressing
discipline (a uid is never inserted under a second context, and `Delete`
targets the context the uid is stored under), every stored handle has a
non-nil port that agrees exactly with the allocator's mapping for its uid. -/
theorem registry_ports_agree (base : Nat) (c : ClusterIndexer)
    (hr : ReachableG base c) :
    ∀ ctx uid h, lookupTree c ctx uid = some h →
      ∃ q, h.port = some q ∧ mapGet c.portAlloc.mapping uid = some q := by
  intro ctx uid h hget
  exact ((reachableG_goodstate base c hr).1 ctx uid h hget).2.2.1

/-- C10 counterexample: the two-operation sequence `Insert wHandleA`,
`Delete "ctxB" "uidA"` (a Delete naming the wrong context) succeeds and leaves
the registry storing the handle under `ctxA` with port 8270 while the
allocator holds no mapping for `uidA` — the stored handle disagrees with the
allocator, refuting the claim over arbitrary operation sequences. -/
theorem c10_counterexample :
    ((NewClusterIndexer (NewPortAllocater 8270)).Insert wHandleA).Delete "ctxB" "uidA" =
      some cex10 ∧
    lookupTree cex10 "ctxA" "uidA" = some { wHandleA with port := some 8270 } ∧
    ({ wHandleA with port := some 8270 } : RayClusterHandle).port = some 8270 ∧
    mapGet cex10.portAlloc.mapping "uidA" = none := by
  decide

/-- Witness for C10's amended theorem at a concrete reachable state. -/
theorem registry_ports_agree_witness :
    ∃ q, ({ wHandleA with port := some 8270 } : RayClusterHandle).port = some q ∧
      mapGet (((NewClusterIndexer (NewPortAllocater 8270)).Insert wHandleA).portAlloc.mapping)
        "uidA" = some q :=
  registry_ports_agree 8270 _
    (ReachableG.insert _ wHandleA ReachableG.init (fun _ _ => rfl))
    "ctxA" "uidA" _ (by decide)

/-! ## Witnesses and counterexamples for the other claims -/

/-- Witness for C1 at a concrete reachable state (one insert). -/
theorem reachable_portAlloc_bij_witness :
    (((NewClusterIndexer (NewPortAllocater 8270)).Insert wHandleA).portAlloc).Bij :=
  reachable_portAlloc_bij 8270 _ (Reachable.insert _ wHandleA Reachable.init)

/-- Witness for C2: inserting the same handle twice equals inserting it once. -/
theorem insert_insert_eq_witness :
    ((NewClusterIndexer (NewPortAllocater 8270)).Insert wHandleA).Insert wHandleA =
      (NewClusterIndexer (NewPortAllocater 8270)).Insert wHandleA :=
  insert_insert_eq _ wHandleA wHandleA rfl rfl

/-- C3 counterexample: on the empty registry, `Delete` of a uid that was never
inserted reads the missing stop function (`c.forwardStopFns[uid]` is `nil`)
and calls it, so the Go process panics — modelled as `none`.  This refutes the
claim that such a `Delete` "does not fail". -/
theorem c3_counterexample :
    (NewClusterIndexer (NewPortAllocater 8270)).Delete "ctxA" "uidA" = none := by
  decide

/-- Witness for C3's amended theorem: both the panic branch (uid never
inserted) and the surviving branch (uid recorded, absent under the named
context) at concrete states. -/
theorem delete_absent_behaviour_witness :
    ((NewClusterIndexer (NewPortAllocater 8270)).Delete "ctxB" "uidZ" = none) ∧
    (∃ c', ((NewClusterIndexer (NewPortAllocater 8270)).Insert wHandleA).Delete "ctxB" "uidA" =
        some c' ∧
      c'.portAlloc =
        ((NewClusterIndexer (NewPortAllocater 8270)).Insert wHandleA).portAlloc.Deallocate "uidA" ∧
      c'.forwardStopFns =
        removeKey ((NewClusterIndexer (NewPortAllocater 8270)).Insert wHandleA).forwardStopFns "uidA" ∧
      (∀ k u, lookupTree c' k u =
        lookupTree ((NewClusterIndexer (NewPortAllocater 8270)).Insert wHandleA) k u) ∧
      (mapGet ((NewClusterIndexer (NewPortAllocater 8270)).Insert wHandleA).portAlloc.mapping
          "uidA" = none →
        c'.portAlloc = ((NewClusterIndexer (NewPortAllocater 8270)).Insert wHandleA).portAlloc)) :=
  ⟨(delete_absent_behaviour _ "ctxB" "uidZ").1 (by decide),
   (delete_absent_behaviour _ "ctxB" "uidA").2 (by decide) (by decide)⟩

/-- Witness for C4 at a concrete allocator: the mapped uid `a` gets its
existing port back with no state change; the fresh uid `b` gets the least
free port. -/
theorem allocate_spec_witness :
    wAlloc.Allocate "a" = (8270, wAlloc) ∧
    (IsLeastFree wAlloc (wAlloc.Allocate "b").1 ∧
      (wAlloc.Allocate "b").2.allocated = (wAlloc.Allocate "b").1 :: wAlloc.allocated ∧
      (wAlloc.Allocate "b").2.mapping = mapSet wAlloc.mapping "b" (wAlloc.Allocate "b").1 ∧
      (wAlloc.Allocate "b").2.allocStart = wAlloc.allocStart) :=
  ⟨(allocate_spec wAlloc "a").1 8270 (by decide), (allocate_spec wAlloc "b").2 (by decide)⟩

/-- Witness for C5 at a concrete registry: deleting `ctxB` after one insert
empties the tree and the mapping. -/
theorem deleteContext_post_witness :
    mapGet ((NewClusterIndexer (NewPortAllocater 8270)).List) "ctxB" = none ∧
    ∀ uid ∈ ctxUids ((NewClusterIndexer (NewPortAllocater 8270)).Insert wHandleB) "ctxB",
      mapGet (NewClusterIndexer (NewPortAllocater 8270)).portAlloc.mapping uid = none :=
  deleteContext_post _ "ctxB" _ (by decide)

/-- Witness for C8: the spec's example HTML body is rewritten with the base
href for `/proxy/abc/` directly after `<head>`, and a JSON response passes
through unchanged. -/
theorem addBase_spec_witness :
    addBase "abc" wRespJson = wRespJson ∧
    (wRespHtml.body = "<html>".data ++ headTag ++ "<title>x</title></head><body/></html>".data ∧
      (addBase "abc" wRespHtml).body = "<html>".data ++ headTag ++
        ("<base href=\"/proxy/" ++ "abc" ++ "/\"/>").data ++
        "<title>x</title></head><body/></html>".data ∧
      (addBase "abc" wRespHtml).contentLength =
        some ((addBase "abc" wRespHtml).body.length) ∧
      (addBase "abc" wRespHtml).contentType = wRespHtml.contentType) :=
  ⟨(addBase_spec "abc" wRespJson).1 (by decide),
   (addBase_spec "abc" wRespHtml).2.2 "<html>".data
     "<title>x</title></head><body/></html>".data (by decide) (by decide)⟩

/-- Witness for C9 at a concrete allocator: empty uid and unknown uid give a
400, a mapped uid forwards to its port. -/
theorem handleProxy_spec_witness :
    handleProxy wAllocProxy "" = ProxyOutcome.clientError 400 ∧
    handleProxy wAllocProxy "zzz" = ProxyOutcome.clientError 400 ∧
    handleProxy wAllocProxy "abc" = ProxyOutcome.forward 8271 :=
  ⟨(handleProxy_spec wAllocProxy "").1 rfl,
   (handleProxy_spec wAllocProxy "zzz").2.1 (by decide),
   (handleProxy_spec wAllocProxy "abc").2.2.1 8271 (by decide) (by decide)⟩

end Multikuberay
